import Mathlib

/-
Verification of the newsclipping-finetune pipeline
(src/src/ingestion.py, src/src/preprocessing.py, src/sharding.py)
against its natural-language specification.

The Python modules are shallowly embedded as Lean definitions:
  * dictionaries become functions into Option,
  * the filesystem / PIL / base64 collaborators become explicit
    environment records of total functions,
  * Python exceptions become an explicit Except result,
  * the side effects of the sharding loop (tar-file creation, sample
    writes, tar-file closing, parquet index flushes) become an explicit
    event trace.
-/

/-- Python exceptions that the embedded code can raise. -/
inductive PyErr where
  | typeError : PyErr
deriving DecidableEq

/-- Models pathlib's `root / rel` join (`root_dir / ex["image_path"]` etc.). -/
def pathJoin (root rel : String) : String := root ++ "/" ++ rel

namespace Ingestion

/-- One value of the asset mapping built by `load_json_as_dict`
(`{"caption": entry.get("caption"), "image_path": entry.get("image_path")}`);
either field can be Python `None`, hence `Option`. -/
structure AssetEntry where
  caption : Option String
  image_path : Option String
deriving DecidableEq

/-- The dictionary yielded by `normalize_entry` on success. -/
structure NormEntry where
  caption : Option String
  img_path : String
  label : Option Bool
  split : String
deriving DecidableEq

/-- One record of the `annotations` array of the split JSON.  The `id`
and `image_id` fields are modelled as present (missing keys behave like
unresolvable ids); `falsified` and `similarity_score` use `Option` for
a missing key / Python `None`.  The float score is modelled as an exact
rational. -/
structure AnnRecord where
  id : String
  image_id : String
  falsified : Option Bool
  similarity_score : Option ℚ
deriving DecidableEq

/-- Embedding of `normalize_entry` (src/src/ingestion.py lines 56-76).
`data_dict` models `data_dict.get`, `fs_exists` models
`Path.exists`.  The function logs a warning when either id is
unresolved but does NOT return there; it then subscripts the possibly-
`None` lookup results, which raises `TypeError` in Python — modelled by
`Except.error PyErr.typeError`. -/
def normalize_entry (caption_id image_id : String) (root_dir : String)
    (data_dict : String → Option AssetEntry) (fs_exists : String → Bool)
    (label : Option Bool) (split_str : String) :
    Except PyErr (Option NormEntry) :=
  let caption_entry := data_dict caption_id
  let image_entry := data_dict image_id
  -- `if not caption_entry or not image_entry: logger.warning(...)` has no
  -- semantic effect beyond the log line; control falls through.
  match image_entry with
  | none => Except.error PyErr.typeError    -- image_entry["image_path"] on None
  | some ie =>
    match ie.image_path with
    | none => Except.error PyErr.typeError  -- root_dir / None
    | some rel =>
      let img_path := pathJoin root_dir rel
      if ¬ fs_exists img_path then
        Except.ok none                       -- "Missing image files ..., skipping"
      else
        match caption_entry with
        | none => Except.error PyErr.typeError  -- caption_entry["caption"] on None
        | some ce =>
          Except.ok (some { caption := ce.caption, img_path := img_path,
                            label := label, split := split_str })

/-- Embedding of the loop of `iter_entries` (src/src/ingestion.py lines
86-102).  The generator is modelled as the list of yielded entries; a
raised exception is an `Except.error` for the whole stream.  Per record
the loop first computes `math.floor(score / .10)` for the debug
`score_dist` counter — `None / 0.1` raises `TypeError` — and only then
calls `normalize_entry`.  Loading of the two JSON files is I/O and is
passed in as the already-built `data_dict` and annotation list. -/
def iter_entries (root_dir : String) (data_dict : String → Option AssetEntry)
    (fs_exists : String → Bool) (split_str : String) :
    List AnnRecord → Except PyErr (List NormEntry)
  | [] => Except.ok []
  | a :: rest =>
    match a.similarity_score with
    | none => Except.error PyErr.typeError   -- score / .10 with score None
    | some q =>
      let _bucket : ℤ := Rat.floor (q / (1 / 10 : ℚ))
      match normalize_entry a.id a.image_id root_dir data_dict fs_exists
          a.falsified split_str with
      | Except.error e => Except.error e
      | Except.ok none => iter_entries root_dir data_dict fs_exists split_str rest
      | Except.ok (some n) =>
        (iter_entries root_dir data_dict fs_exists split_str rest).map
          (fun l => n :: l)

/-- Whether an `Except` value is a normal (non-raising) result. -/
def exceptOk : Except PyErr (List NormEntry) → Bool
  | Except.ok _ => true
  | Except.error _ => false

/-- A concrete asset mapping with a single resolvable id `"a1"`. -/
def dictEx : String → Option AssetEntry := fun k =>
  if k = "a1" then some { caption := some "A Caption", image_path := some "img1.jpg" }
  else none

/-- A filesystem on which exactly `data/img1.jpg` exists. -/
def fsEx : String → Bool := fun p => p = "data/img1.jpg"

/-- An annotation whose ids both resolve and whose score is present. -/
def annGood : AnnRecord :=
  { id := "a1", image_id := "a1", falsified := some false,
    similarity_score := some (1 / 2) }

/-- An annotation with a missing (`None`) similarity score. -/
def annNoScore : AnnRecord :=
  { id := "a1", image_id := "a1", falsified := some true,
    similarity_score := none }

end Ingestion

namespace Preprocessing

/-- ASCII lowercasing of one character, the character-wise behaviour of
Python `str.lower` on the ASCII range (the embedding restricts the
character classes to ASCII). -/
def lowerChar (c : Char) : Char :=
  if 65 ≤ c.toNat ∧ c.toNat ≤ 90 then Char.ofNat (c.toNat + 32) else c

/-- Drop leading whitespace (the left half of Python `str.strip`). -/
def dropLead (l : List Char) : List Char := l.dropWhile Char.isWhitespace

/-- Drop trailing whitespace (the right half of Python `str.strip`). -/
def dropTrail (l : List Char) : List Char :=
  (l.reverse.dropWhile Char.isWhitespace).reverse

/-- Python `str.strip`: drop leading and trailing whitespace. -/
def trimList (l : List Char) : List Char := dropTrail (dropLead l)

/-- Replace every maximal run of whitespace by a single space:
the effect of `re.sub(r"\s+", " ", text)`.  The flag records whether
the previously emitted position lies inside a whitespace run. -/
def collapseWsAux : Bool → List Char → List Char
  | _, [] => []
  | prevWs, c :: rest =>
    if c.isWhitespace then
      if prevWs then collapseWsAux true rest
      else ' ' :: collapseWsAux true rest
    else c :: collapseWsAux false rest

/-- Embedding of `clean_text` (src/src/preprocessing.py lines 54-57):
`text.lower().strip()` followed by `re.sub(r"\s+", " ", text)`. -/
def clean_text (text : String) : String :=
  String.mk (collapseWsAux false (trimList (text.data.map lowerChar)))

/-- PIL image modes relevant to the pipeline. -/
inductive PILMode where
  | P : PILMode
  | RGBA : PILMode
  | LA : PILMode
  | RGB : PILMode
  | L : PILMode
  | CMYK : PILMode
  | I : PILMode
deriving DecidableEq

/-- A decoded PIL image, abstracted to its mode and pixel dimensions. -/
structure PILImage where
  mode : PILMode
  width : Nat
  height : Nat
deriving DecidableEq

/-- `img.convert(m)`: PIL always returns an image of the requested mode,
with unchanged dimensions. -/
def convert (img : PILImage) (m : PILMode) : PILImage :=
  { img with mode := m }

/-- `img.resize((w, h))`: non-aspect-preserving stretch to exactly the
requested dimensions, mode unchanged. -/
def resize (img : PILImage) (w h : Nat) : PILImage :=
  { img with width := w, height := h }

/-- JPEG bytes produced by `img.save(buf, format="JPEG")`, abstracted to
the information a later decode recovers (the base64 wrapping applied by
`preprocess_image` is an injective re-encoding and is left implicit). -/
structure EncodedImage where
  srcMode : PILMode
  width : Nat
  height : Nat
deriving DecidableEq

/-- `img.save(buf, format="JPEG", quality=90)` on a decodable mode. -/
def saveJpeg (img : PILImage) : EncodedImage :=
  { srcMode := img.mode, width := img.width, height := img.height }

/-- The mode a JPEG round-trip preserves: greyscale stays `L`, CMYK stays
`CMYK`, every other saved mode decodes as 3-channel `RGB`. -/
def jpegStoredMode : PILMode → PILMode
  | PILMode.L => PILMode.L
  | PILMode.CMYK => PILMode.CMYK
  | _ => PILMode.RGB

/-- Decoding the written JPEG bytes back into an image. -/
def decodeJpeg (e : EncodedImage) : PILImage :=
  { mode := jpegStoredMode e.srcMode, width := e.width, height := e.height }

/-- The collaborators of the preprocessing path: `Image.open` either
identifies the file (`some`) or raises
`UnidentifiedImageError`/`OSError` (`none`). -/
structure PEnv where
  openImage : String → Option PILImage

/-- Embedding of `preprocess_image` (src/src/preprocessing.py lines
59-77).  Palette / alpha modes are converted via RGBA to RGB, any other
non-RGB mode directly to RGB; the image is stretched to the target
square and re-encoded as JPEG (quality 90).  A failed
open/identify is caught and yields `none`. -/
def preprocess_image (env : PEnv) (img_path : String) (size : Nat) :
    Option EncodedImage :=
  match env.openImage img_path with
  | none => none
  | some img0 =>
    let img1 :=
      if img0.mode = PILMode.P ∨ img0.mode = PILMode.RGBA ∨ img0.mode = PILMode.LA then
        convert (convert img0 PILMode.RGBA) PILMode.RGB
      else if img0.mode ≠ PILMode.RGB then
        convert img0 PILMode.RGB
      else img0
    let img2 := resize img1 size size
    some (saveJpeg img2)

/-- The entry consumed by `preprocess_entry`: the `caption`, `label` and
`img_path` keys of a joined entry (cf. `normalize_entry`). -/
structure PrepEntry where
  caption : String
  img_path : String
  label : Option Bool
deriving DecidableEq

/-- The dictionary returned by `preprocess_entry`; the optionally present
`image` and `valid` keys are `Option` fields (`none` = key absent). -/
structure PrepOutput where
  caption : String
  label : Option Bool
  image : Option EncodedImage
  valid : Option Bool
deriving DecidableEq

/-- Embedding of `preprocess_entry` (src/src/preprocessing.py lines
79-94): always emits the cleaned caption and the label; on image
success additionally sets `image` and `valid = True`; on failure it
returns the partial dictionary unchanged (neither `image` nor `valid`
is set). -/
def preprocess_entry (env : PEnv) (entry : PrepEntry) (img_size : Nat) :
    PrepOutput :=
  let output : PrepOutput :=
    { caption := clean_text entry.caption, label := entry.label,
      image := none, valid := none }
  match preprocess_image env entry.img_path img_size with
  | none => output
  | some img => { output with image := some img, valid := some true }

/-- Whether a character list is whitespace-collapsed: every whitespace
character is the single space and no two whitespace characters are
adjacent. -/
def collapsedRun : List Char → Bool
  | [] => true
  | c :: rest =>
    (!c.isWhitespace || c = ' ') &&
    (match rest with
     | [] => true
     | d :: _ => !(c.isWhitespace && d.isWhitespace)) &&
    collapsedRun rest

/-- A `PEnv` in which no path yields a decodable image. -/
def envNoImage : PEnv := { openImage := fun _ => none }

/-- A `PEnv` exposing a single palette-mode (with alpha) image file. -/
def envPalette : PEnv :=
  { openImage := fun p =>
      if p = "root/pal.png" then
        some { mode := PILMode.P, width := 30, height := 17 }
      else none }

/-- A concrete joined entry used to exercise `preprocess_entry`. -/
def entryEx : PrepEntry :=
  { caption := "  An  EXAMPLE   Caption ", img_path := "root/pal.png",
    label := some true }

end Preprocessing

namespace Sharding

/-- One input record of `shard_dataset` (a row of `data.json` or of the
pre-normalized parquet).  The fields used by either path are modelled as
present; the schema is assumed well-formed, matching the spec's
load-time contract. -/
structure RawRecord where
  id : String
  source : String
  topic : String
  caption : String
  image_path : String
  article_path : String
  image_b64 : String
  text : String
deriving DecidableEq

/-- The webdataset sample written per record: `__key__`, `jpg`, `txt`
and the `json` metadata member. -/
structure Sample where
  key : String
  jpg : String
  txt : String
  json_id : String
  json_source : String
  json_topic : String
  json_caption : String
deriving DecidableEq

/-- One row of the parquet index. -/
structure IdxRecord where
  id : String
  source : String
  topic : String
  caption : String
  key : String
  shard : String
deriving DecidableEq

/-- The observable side effects of a run: opening a tar container
(creates the shard file), writing one sample into the currently open
container, closing a container, and flushing the index buffer to a
named parquet file. -/
inductive Ev where
  | openShard : Nat → Ev
  | write : Nat → Sample → Ev
  | closeShard : Nat → Ev
  | flush : String → List IdxRecord → Ev
deriving DecidableEq

/-- The mutable state of the sharding loop plus the accumulated event
trace. -/
structure SState where
  index_records : List IdxRecord
  shard_idx : Nat
  in_shard : Nat
  events : List Ev
deriving DecidableEq

/-- The configuration arguments of `shard_dataset`. -/
structure SConfig where
  preprocessed : Bool
  root_dir : String
  samples_per_shard : Nat
  quality : Nat
  parquet_flush_amount : Nat
deriving DecidableEq

/-- Filesystem / PIL / base64 collaborators of the sharding path.
`decodeImage` models `Image.open` followed by `pil_to_jpeg_bytes` at the
configured quality (`none` = `UnidentifiedImageError`/`OSError`);
`readText` models reading the article text (`none` = any exception);
`b64decode` models `base64.b64decode` on the pre-normalized path. -/
structure SEnv where
  pathExists : String → Bool
  decodeImage : String → Nat → Option String
  readText : String → Option String
  b64decode : String → String

/-- Left-pad the decimal form of `n` with zeros to width `w`
(Python `f"{n:0wd}"`). -/
def pad (w n : Nat) : String :=
  String.mk (List.replicate (w - (toString n).length) '0' ++ (toString n).data)

/-- `f"shard-{idx:06d}.tar"`. -/
def shardName (idx : Nat) : String := "shard-" ++ pad 6 idx ++ ".tar"

/-- `f"index-{i+1:09d}.parquet"`. -/
def indexName (k : Nat) : String := "index-" ++ pad 9 k ++ ".parquet"

/-- The distinct name of the end-of-stream index file. -/
def finalIndexName : String := "index-final.parquet"

/-- `f"{ex['source']}_{ex['id']}"`. -/
def keyOf (ex : RawRecord) : String := ex.source ++ "_" ++ ex.id

/-- The sample dictionary built at src/sharding.py lines 94-105. -/
def sampleOf (ex : RawRecord) (imgBytes articleTxt : String) : Sample :=
  { key := keyOf ex, jpg := imgBytes, txt := articleTxt,
    json_id := ex.id, json_source := ex.source,
    json_topic := ex.topic, json_caption := ex.caption }

/-- The index row built at src/sharding.py lines 107-114, determined by
the written sample and the sequence index of the shard it goes to. -/
def idxOfSample (s : Nat) (smp : Sample) : IdxRecord :=
  { id := smp.json_id, source := smp.json_source, topic := smp.json_topic,
    caption := smp.json_caption, key := smp.key, shard := shardName s }

/-- Uncurried form of `idxOfSample` for mapping over write events. -/
def idxPair (p : Nat × Sample) : IdxRecord := idxOfSample p.1 p.2

/-- Per-record outcome of the guard section of the loop body
(src/sharding.py lines 64-88): `some (img_bytes, article_txt)` when the
record survives, `none` when one of the three `continue` branches
fires (missing file, image decode failure, text read failure).  The
pre-normalized path never skips. -/
def recOutcome (cfg : SConfig) (env : SEnv) (ex : RawRecord) :
    Option (String × String) :=
  if cfg.preprocessed then
    some (env.b64decode ex.image_b64, ex.text)
  else
    let imgP := pathJoin cfg.root_dir ex.image_path
    let txtP := pathJoin cfg.root_dir ex.article_path
    if ¬ env.pathExists imgP ∨ ¬ env.pathExists txtP then none
    else
      match env.decodeImage imgP cfg.quality with
      | none => none
      | some imgBytes =>
        match env.readText txtP with
        | none => none
        | some articleTxt => some (imgBytes, articleTxt)

/-- Lines 107-119 of src/sharding.py for a surviving record: append the
index row to the buffer, write the sample to the currently open
container, bump the in-shard count. -/
def doWrite (st : SState) (smp : Sample) : SState :=
  { index_records := st.index_records ++ [idxOfSample st.shard_idx smp],
    shard_idx := st.shard_idx,
    in_shard := st.in_shard + 1,
    events := st.events ++ [Ev.write st.shard_idx smp] }

/-- Lines 121-125 of src/sharding.py: when the in-shard count has
reached capacity, close the container, open the next one, reset the
count. -/
def doRotate (c : Nat) (st : SState) : SState :=
  if c ≤ st.in_shard then
    { index_records := st.index_records,
      shard_idx := st.shard_idx + 1,
      in_shard := 0,
      events := st.events ++
        [Ev.closeShard st.shard_idx, Ev.openShard (st.shard_idx + 1)] }
  else st

/-- Lines 127-132 of src/sharding.py: when the 1-based input position
`i + 1` is a multiple of `parquet_flush_amount`, serialize the buffer
to `index-{i+1:09d}.parquet` and clear it. -/
def doFlush (flushAmount i : Nat) (st : SState) : SState :=
  if (i + 1) % flushAmount = 0 then
    { index_records := [],
      shard_idx := st.shard_idx,
      in_shard := st.in_shard,
      events := st.events ++ [Ev.flush (indexName (i + 1)) st.index_records] }
  else st

/-- One iteration of the loop body of `shard_dataset`
(src/sharding.py lines 63-132) for the record at enumerate-position
`i`: a skipped record `continue`s before the rotation and flush
checks; a surviving record is written, then the rotation check runs,
then the flush check. -/
def shardStep (cfg : SConfig) (env : SEnv) (st : SState)
    (i : Nat) (ex : RawRecord) : SState :=
  match recOutcome cfg env ex with
  | none => st
  | some (imgBytes, articleTxt) =>
    doFlush cfg.parquet_flush_amount i
      (doRotate cfg.samples_per_shard (doWrite st (sampleOf ex imgBytes articleTxt)))

/-- The `enumerate` loop of `shard_dataset`, starting at position
`start`. -/
def shardLoop (cfg : SConfig) (env : SEnv) :
    Nat → List RawRecord → SState → SState
  | _, [], st => st
  | start, ex :: rest, st =>
    shardLoop cfg env (start + 1) rest (shardStep cfg env st start ex)

/-- The state right after `wds.TarWriter(... shard-000000.tar)` is
created (src/sharding.py lines 57-60). -/
def initState : SState :=
  { index_records := [], shard_idx := 0, in_shard := 0,
    events := [Ev.openShard 0] }

/-- End-of-stream finalization (src/sharding.py lines 134-140): flush
the remaining index rows iff the buffer is non-empty, then close the
currently open container. -/
def shardFinal (st : SState) : SState :=
  let st1 : SState :=
    if st.index_records = [] then st
    else
      { index_records := [], shard_idx := st.shard_idx,
        in_shard := st.in_shard,
        events := st.events ++ [Ev.flush finalIndexName st.index_records] }
  { index_records := st1.index_records, shard_idx := st1.shard_idx,
    in_shard := st1.in_shard,
    events := st1.events ++ [Ev.closeShard st1.shard_idx] }

/-- Embedding of `shard_dataset` (src/sharding.py lines 39-141) on an
already-loaded record list (loading the JSON/parquet is fatal-error
I/O and precedes the modelled loop). -/
def shard_dataset (cfg : SConfig) (env : SEnv) (data : List RawRecord) :
    SState :=
  shardFinal (shardLoop cfg env 0 data initState)

/-- The shard count reported by the final log line, `shard_idx + 1`. -/
def reportedShards (st : SState) : Nat := st.shard_idx + 1

/-- All write events of a trace, as (shard sequence index, sample). -/
def allWrites : List Ev → List (Nat × Sample)
  | [] => []
  | Ev.write s smp :: rest => (s, smp) :: allWrites rest
  | Ev.openShard _ :: rest => allWrites rest
  | Ev.closeShard _ :: rest => allWrites rest
  | Ev.flush _ _ :: rest => allWrites rest

/-- Number of samples written over the whole trace. -/
def numWrites (evs : List Ev) : Nat := (allWrites evs).length

/-- The samples written into the container with sequence index `s`. -/
def writesTo (s : Nat) : List Ev → List Sample
  | [] => []
  | Ev.write s' smp :: rest =>
    if s' = s then smp :: writesTo s rest else writesTo s rest
  | Ev.openShard _ :: rest => writesTo s rest
  | Ev.closeShard _ :: rest => writesTo s rest
  | Ev.flush _ _ :: rest => writesTo s rest

/-- Number of tar containers created (= `wds.TarWriter` constructions). -/
def countOpens : List Ev → Nat
  | [] => 0
  | Ev.openShard _ :: rest => countOpens rest + 1
  | Ev.write _ _ :: rest => countOpens rest
  | Ev.closeShard _ :: rest => countOpens rest
  | Ev.flush _ _ :: rest => countOpens rest

/-- Concatenated contents of every flushed parquet index file, in flush
order. -/
def allFlushed : List Ev → List IdxRecord
  | [] => []
  | Ev.flush _ recs :: rest => recs ++ allFlushed rest
  | Ev.openShard _ :: rest => allFlushed rest
  | Ev.write _ _ :: rest => allFlushed rest
  | Ev.closeShard _ :: rest => allFlushed rest

/-- Number of periodic (cadence-triggered) index flushes. -/
def periodicCount : List Ev → Nat
  | [] => 0
  | Ev.flush nm _ :: rest =>
    (if nm = finalIndexName then 0 else 1) + periodicCount rest
  | Ev.openShard _ :: rest => periodicCount rest
  | Ev.write _ _ :: rest => periodicCount rest
  | Ev.closeShard _ :: rest => periodicCount rest

/-- Number of end-of-stream index flushes. -/
def finalFlushCount : List Ev → Nat
  | [] => 0
  | Ev.flush nm _ :: rest =>
    (if nm = finalIndexName then 1 else 0) + finalFlushCount rest
  | Ev.openShard _ :: rest => finalFlushCount rest
  | Ev.write _ _ :: rest => finalFlushCount rest
  | Ev.closeShard _ :: rest => finalFlushCount rest

/-- Whether an event concerns the container with sequence index `s`. -/
def isShardEv (s : Nat) : Ev → Bool
  | Ev.openShard s' => s' = s
  | Ev.write s' _ => s' = s
  | Ev.closeShard s' => s' = s
  | Ev.flush _ _ => false

/-- The life of container `s`: the subtrace of events concerning it. -/
def shardTrace (s : Nat) (evs : List Ev) : List Ev :=
  evs.filter (isShardEv s)

/-- Whether every container event of the trace stays within sequence
index `k`. -/
def evBound (k : Nat) : Ev → Bool
  | Ev.openShard s => s ≤ k
  | Ev.write s _ => s ≤ k
  | Ev.closeShard s => s ≤ k
  | Ev.flush _ _ => true

/-- How many records of the input survive the skip guards. -/
def countWritten (cfg : SConfig) (env : SEnv) (data : List RawRecord) : Nat :=
  (data.filter (fun ex => (recOutcome cfg env ex).isSome)).length

/-- How many records, starting at enumerate-position `start`, are
written AND sit at a flush boundary (1-based position divisible by
`parquet_flush_amount`) — exactly the iterations at which the code
reaches the flush branch with the condition true. -/
def countBoundaryWritten (cfg : SConfig) (env : SEnv) :
    Nat → List RawRecord → Nat
  | _, [] => 0
  | start, ex :: rest =>
    (if (recOutcome cfg env ex).isSome ∧ (start + 1) % cfg.parquet_flush_amount = 0
     then 1 else 0) + countBoundaryWritten cfg env (start + 1) rest

/-- The parameter names of `shard_dataset` (src/sharding.py lines
39-47). -/
def shard_dataset_param_names : List String :=
  ["data_path", "root_dir", "out_dir", "preprocessed",
   "samples_per_shard", "quality", "parquet_flush_amount"]

/-- The keyword arguments `main` passes to `shard_dataset`
(src/sharding.py lines 161-167). -/
def main_shard_call_kwargs : List String :=
  ["data_json", "root_dir", "out_dir", "samples_per_shard", "quality"]

/-- CPython call binding for a keyword-only call: an argument whose
keyword matches no parameter raises `TypeError` ("got an unexpected
keyword argument") before the callee body runs. -/
def bindCall (params kwargs : List String) : Except PyErr Unit :=
  if kwargs.all (fun k => params.contains k) then Except.ok ()
  else Except.error PyErr.typeError

/-- The outcome of the call `shard_dataset(data_json=..., ...)` made by
`main` in src/sharding.py. -/
def sharding_main_call : Except PyErr Unit :=
  bindCall shard_dataset_param_names main_shard_call_kwargs

/-- A concrete input record parameterized by its id. -/
def sampleRec (n : String) : RawRecord :=
  { id := n, source := "s", topic := "t", caption := "c",
    image_path := "img" ++ n, article_path := "art" ++ n,
    image_b64 := "b" ++ n, text := "x" ++ n }

/-- A collaborator environment on which every record survives. -/
def ppEnv : SEnv :=
  { pathExists := fun _ => true, decodeImage := fun _ _ => some "J",
    readText := fun _ => some "T", b64decode := fun s => s }

/-- A collaborator environment on which only record `"1"` has its files
on disk: every other record is skipped by the missing-file guard. -/
def skipEnv : SEnv :=
  { pathExists := fun p => p = "root/img1" ∨ p = "root/art1",
    decodeImage := fun _ _ => some "J",
    readText := fun _ => some "T", b64decode := fun s => s }

/-- Pre-normalized input, capacity 1, flush cadence far away. -/
def cfgCapOne : SConfig :=
  { preprocessed := true, root_dir := "root", samples_per_shard := 1,
    quality := 90, parquet_flush_amount := 100 }

/-- Pre-normalized input, capacity 2, flush cadence far away. -/
def cfgCapTwo : SConfig :=
  { preprocessed := true, root_dir := "root", samples_per_shard := 2,
    quality := 90, parquet_flush_amount := 100 }

/-- Pre-normalized input, large capacity, flush cadence far away. -/
def cfgBig : SConfig :=
  { preprocessed := true, root_dir := "root", samples_per_shard := 5000,
    quality := 90, parquet_flush_amount := 100 }

/-- Pre-normalized input with a degenerate capacity of zero. -/
def cfgZero : SConfig :=
  { preprocessed := true, root_dir := "root", samples_per_shard := 0,
    quality := 90, parquet_flush_amount := 100 }

/-- Filesystem-path input with flush cadence 2. -/
def cfgFlushTwo : SConfig :=
  { preprocessed := false, root_dir := "root", samples_per_shard := 5000,
    quality := 90, parquet_flush_amount := 2 }

@[simp] theorem allWrites_append (l1 l2 : List Ev) :
    allWrites (l1 ++ l2) = allWrites l1 ++ allWrites l2 := by
  induction l1 with
  | nil => simp [allWrites]
  | cons e rest ih => cases e <;> simp [allWrites, ih]

@[simp] theorem writesTo_append (s : Nat) (l1 l2 : List Ev) :
    writesTo s (l1 ++ l2) = writesTo s l1 ++ writesTo s l2 := by
  induction l1 with
  | nil => simp [writesTo]
  | cons e rest ih =>
    cases e with
    | write s' smp => by_cases h : s' = s <;> simp [writesTo, ih, h]
    | openShard s' => simp [writesTo, ih]
    | closeShard s' => simp [writesTo, ih]
    | flush nm recs => simp [writesTo, ih]

@[simp] theorem countOpens_append (l1 l2 : List Ev) :
    countOpens (l1 ++ l2) = countOpens l1 + countOpens l2 := by
  induction l1 with
  | nil => simp [countOpens]
  | cons e rest ih => cases e <;> simp [countOpens, ih] <;> omega

@[simp] theorem allFlushed_append (l1 l2 : List Ev) :
    allFlushed (l1 ++ l2) = allFlushed l1 ++ allFlushed l2 := by
  induction l1 with
  | nil => simp [allFlushed]
  | cons e rest ih => cases e <;> simp [allFlushed, ih]

@[simp] theorem periodicCount_append (l1 l2 : List Ev) :
    periodicCount (l1 ++ l2) = periodicCount l1 + periodicCount l2 := by
  induction l1 with
  | nil => simp [periodicCount]
  | cons e rest ih => cases e <;> simp [periodicCount, ih] <;> omega

@[simp] theorem finalFlushCount_append (l1 l2 : List Ev) :
    finalFlushCount (l1 ++ l2) = finalFlushCount l1 + finalFlushCount l2 := by
  induction l1 with
  | nil => simp [finalFlushCount]
  | cons e rest ih => cases e <;> simp [finalFlushCount, ih] <;> omega

@[simp] theorem shardTrace_append (s : Nat) (l1 l2 : List Ev) :
    shardTrace s (l1 ++ l2) = shardTrace s l1 ++ shardTrace s l2 := by
  simp [shardTrace, List.filter_append]

theorem pad_length_ge (w n : Nat) : w ≤ (pad w n).length := by
  have h : (pad w n).length =
      (w - (toString n).length) + (toString n).data.length := by
    simp [pad, String.length_mk]
  have h2 : (toString n).data.length = (toString n).length := rfl
  rw [h, h2]
  omega

theorem indexName_length_ge (k : Nat) : 23 ≤ (indexName k).length := by
  have h1 : (indexName k).length = ("index-" ++ pad 9 k).length + ".parquet".length :=
    String.length_append _ _
  have h2 : ("index-" ++ pad 9 k).length = "index-".length + (pad 9 k).length :=
    String.length_append _ _
  have h3 : 9 ≤ (pad 9 k).length := pad_length_ge 9 k
  have h4 : "index-".length = 6 := rfl
  have h5 : ".parquet".length = 8 := rfl
  rw [h2, h4] at h1
  rw [h1, h5]
  omega

theorem indexName_ne_final (k : Nat) : indexName k ≠ finalIndexName := by
  intro h
  have h1 : 23 ≤ (indexName k).length := indexName_length_ge k
  rw [h] at h1
  have h2 : finalIndexName.length = 19 := rfl
  omega

@[simp] theorem allWrites_nil : allWrites [] = [] := rfl

@[simp] theorem allWrites_write (s : Nat) (smp : Sample) (l : List Ev) :
    allWrites (Ev.write s smp :: l) = (s, smp) :: allWrites l := rfl

@[simp] theorem allWrites_open (s : Nat) (l : List Ev) :
    allWrites (Ev.openShard s :: l) = allWrites l := rfl

@[simp] theorem allWrites_close (s : Nat) (l : List Ev) :
    allWrites (Ev.closeShard s :: l) = allWrites l := rfl

@[simp] theorem allWrites_flush (nm : String) (recs : List IdxRecord) (l : List Ev) :
    allWrites (Ev.flush nm recs :: l) = allWrites l := rfl

@[simp] theorem writesTo_nil (s : Nat) : writesTo s [] = [] := rfl

theorem writesTo_write (s s' : Nat) (smp : Sample) (l : List Ev) :
    writesTo s (Ev.write s' smp :: l) =
      if s' = s then smp :: writesTo s l else writesTo s l := rfl

@[simp] theorem writesTo_write_self (s : Nat) (smp : Sample) (l : List Ev) :
    writesTo s (Ev.write s smp :: l) = smp :: writesTo s l := by
  rw [writesTo_write]; simp

@[simp] theorem writesTo_write_ne (s s' : Nat) (smp : Sample) (l : List Ev)
    (h : s' ≠ s) : writesTo s (Ev.write s' smp :: l) = writesTo s l := by
  rw [writesTo_write]; simp [h]

@[simp] theorem writesTo_open (s s' : Nat) (l : List Ev) :
    writesTo s (Ev.openShard s' :: l) = writesTo s l := rfl

@[simp] theorem writesTo_close (s s' : Nat) (l : List Ev) :
    writesTo s (Ev.closeShard s' :: l) = writesTo s l := rfl

@[simp] theorem writesTo_flush (s : Nat) (nm : String) (recs : List IdxRecord)
    (l : List Ev) : writesTo s (Ev.flush nm recs :: l) = writesTo s l := rfl

@[simp] theorem countOpens_nil : countOpens [] = 0 := rfl

@[simp] theorem countOpens_open (s : Nat) (l : List Ev) :
    countOpens (Ev.openShard s :: l) = countOpens l + 1 := rfl

@[simp] theorem countOpens_write (s : Nat) (smp : Sample) (l : List Ev) :
    countOpens (Ev.write s smp :: l) = countOpens l := rfl

@[simp] theorem countOpens_close (s : Nat) (l : List Ev) :
    countOpens (Ev.closeShard s :: l) = countOpens l := rfl

@[simp] theorem countOpens_flush (nm : String) (recs : List IdxRecord) (l : List Ev) :
    countOpens (Ev.flush nm recs :: l) = countOpens l := rfl

@[simp] theorem allFlushed_nil : allFlushed [] = [] := rfl

@[simp] theorem allFlushed_flush (nm : String) (recs : List IdxRecord) (l : List Ev) :
    allFlushed (Ev.flush nm recs :: l) = recs ++ allFlushed l := rfl

@[simp] theorem allFlushed_open (s : Nat) (l : List Ev) :
    allFlushed (Ev.openShard s :: l) = allFlushed l := rfl

@[simp] theorem allFlushed_write (s : Nat) (smp : Sample) (l : List Ev) :
    allFlushed (Ev.write s smp :: l) = allFlushed l := rfl

@[simp] theorem allFlushed_close (s : Nat) (l : List Ev) :
    allFlushed (Ev.closeShard s :: l) = allFlushed l := rfl

@[simp] theorem isShardEv_open (s s' : Nat) :
    isShardEv s (Ev.openShard s') = decide (s' = s) := rfl

@[simp] theorem isShardEv_write (s s' : Nat) (smp : Sample) :
    isShardEv s (Ev.write s' smp) = decide (s' = s) := rfl

@[simp] theorem isShardEv_close (s s' : Nat) :
    isShardEv s (Ev.closeShard s') = decide (s' = s) := rfl

@[simp] theorem isShardEv_flush (s : Nat) (nm : String) (recs : List IdxRecord) :
    isShardEv s (Ev.flush nm recs) = false := rfl

@[simp] theorem shardTrace_nil (s : Nat) : shardTrace s [] = [] := rfl

/-- The loop invariant of `shard_dataset` for a positive capacity `c`:
the relation between the mutable counters and the event trace. -/
structure Inv (c : Nat) (st : SState) : Prop where
  hin : st.in_shard < c
  hW : c * st.shard_idx + st.in_shard = numWrites st.events
  hopens : countOpens st.events = st.shard_idx + 1
  hwfull : ∀ s, s < st.shard_idx → (writesTo s st.events).length = c
  hwcur : (writesTo st.shard_idx st.events).length = st.in_shard
  hwhigh : ∀ s, st.shard_idx < s → writesTo s st.events = []
  htrdone : ∀ s, s < st.shard_idx → shardTrace s st.events =
      Ev.openShard s :: ((writesTo s st.events).map (Ev.write s) ++ [Ev.closeShard s])
  htrcur : shardTrace st.shard_idx st.events =
      Ev.openShard st.shard_idx ::
        (writesTo st.shard_idx st.events).map (Ev.write st.shard_idx)
  htrhigh : ∀ s, st.shard_idx < s → shardTrace s st.events = []
  hbuf : allFlushed st.events ++ st.index_records = (allWrites st.events).map idxPair

theorem inv_init (c : Nat) (hc : 1 ≤ c) : Inv c initState := by
  refine ⟨?_, ?_, ?_, ?_, ?_, ?_, ?_, ?_, ?_, ?_⟩
  · simpa [initState] using hc
  · simp [initState, numWrites]
  · simp [initState]
  · intro s hs; simp [initState] at hs
  · simp [initState]
  · intro s _; simp [initState]
  · intro s hs; simp [initState] at hs
  · simp [initState, shardTrace, List.filter]
  · intro s hs
    simp only [initState] at hs ⊢
    have hne : (0 : Nat) ≠ s := by omega
    simp [shardTrace, List.filter_cons, hne]
  · simp [initState]

theorem inv_write_rotate {c : Nat} (hc : 1 ≤ c) {st : SState} (h : Inv c st)
    (smp : Sample) : Inv c (doRotate c (doWrite st smp)) := by
  obtain ⟨hin, hW, hopens, hwfull, hwcur, hwhigh, htrdone, htrcur, htrhigh, hbuf⟩ := h
  by_cases hrot : c ≤ st.in_shard + 1
  · -- the append reached capacity: rotate
    have hceq : st.in_shard + 1 = c := by omega
    have hstate : doRotate c (doWrite st smp) =
        { index_records := st.index_records ++ [idxOfSample st.shard_idx smp],
          shard_idx := st.shard_idx + 1,
          in_shard := 0,
          events := st.events ++ [Ev.write st.shard_idx smp] ++
            [Ev.closeShard st.shard_idx, Ev.openShard (st.shard_idx + 1)] } := by
      simp [doRotate, doWrite, hrot]
    rw [hstate]
    refine ⟨?_, ?_, ?_, ?_, ?_, ?_, ?_, ?_, ?_, ?_⟩
    · simpa using hc
    · simp only [numWrites] at hW ⊢
      simp only [allWrites_append, allWrites_write, allWrites_nil,
        allWrites_close, allWrites_open, List.length_append]
      simp only [Nat.mul_succ]
      simp only [List.length_cons, List.length_nil]
      omega
    · simp
      omega
    · intro s hs
      simp only at hs ⊢
      by_cases hsk : s = st.shard_idx
      · subst hsk
        simp [hwcur]
        omega
      · have hks : st.shard_idx ≠ s := fun hh => hsk hh.symm
        have hks1 : st.shard_idx + 1 ≠ s := by omega
        simp [hks, hks1]
        exact hwfull s (by omega)
    · simp only
      have hk1 : st.shard_idx ≠ st.shard_idx + 1 := by omega
      simp [hk1, hwhigh (st.shard_idx + 1) (by omega)]
    · intro s hs
      simp only at hs ⊢
      have hks : st.shard_idx ≠ s := by omega
      have hks1 : st.shard_idx + 1 ≠ s := by omega
      simp [hks, hks1, hwhigh s (by omega)]
    · intro s hs
      simp only at hs ⊢
      by_cases hsk : s = st.shard_idx
      · subst hsk
        have hk1 : st.shard_idx + 1 ≠ st.shard_idx := by omega
        simp [shardTrace, List.filter_append, List.filter_cons, hk1, htrcur]
        rw [← shardTrace]
        simp [htrcur]
      · have hks : st.shard_idx ≠ s := fun hh => hsk hh.symm
        have hks1 : st.shard_idx + 1 ≠ s := by omega
        simp only [shardTrace, List.filter_append, List.filter_cons] at htrdone ⊢
        simp [hks, hks1]
        have := htrdone s (by omega)
        simp only [shardTrace] at this
        simp [hks, this]
    · simp only
      have hk1 : st.shard_idx ≠ st.shard_idx + 1 := by omega
      have htr := htrhigh (st.shard_idx + 1) (by omega)
      simp only [shardTrace] at htr
      simp [shardTrace, List.filter_append, List.filter_cons, hk1, htr,
        hwhigh (st.shard_idx + 1) (by omega)]
    · intro s hs
      simp only at hs ⊢
      have hks : st.shard_idx ≠ s := by omega
      have hks1 : st.shard_idx + 1 ≠ s := by omega
      have htr := htrhigh s (by omega)
      simp only [shardTrace] at htr
      simp [shardTrace, List.filter_append, List.filter_cons, hks, hks1, htr]
    · simp only
      simp only [allFlushed_append, allFlushed_write, allFlushed_close,
        allFlushed_open, allFlushed_nil, List.append_nil,
        allWrites_append, allWrites_write, allWrites_close, allWrites_open,
        allWrites_nil, List.map_append]
      rw [← List.append_assoc, hbuf]
      rfl
  · -- below capacity: no rotation
    have hstate : doRotate c (doWrite st smp) = doWrite st smp := by
      simp [doRotate, doWrite, hrot]
    rw [hstate]
    simp only [doWrite]
    refine ⟨?_, ?_, ?_, ?_, ?_, ?_, ?_, ?_, ?_, ?_⟩
    · simp only
      omega
    · simp only [numWrites] at hW ⊢
      simp [List.length_append]
      omega
    · simpa using hopens
    · intro s hs
      simp only at hs ⊢
      have hks : st.shard_idx ≠ s := by omega
      simp [hks]
      exact hwfull s hs
    · simp [hwcur]
    · intro s hs
      simp only at hs ⊢
      have hks : st.shard_idx ≠ s := by omega
      simp [hks, hwhigh s hs]
    · intro s hs
      simp only at hs ⊢
      have hks : st.shard_idx ≠ s := by omega
      have := htrdone s hs
      simp only [shardTrace] at this ⊢
      simp [List.filter_append, List.filter_cons, hks, this]
    · simp only
      simp only [shardTrace, List.filter_append, List.filter_cons] at htrcur ⊢
      simp [htrcur]
    · intro s hs
      simp only at hs ⊢
      have hks : st.shard_idx ≠ s := by omega
      have := htrhigh s hs
      simp only [shardTrace] at this ⊢
      simp [List.filter_append, List.filter_cons, hks, this]
    · simp only
      simp only [allFlushed_append, allFlushed_write, allFlushed_nil,
        List.append_nil, allWrites_append, allWrites_write, allWrites_nil,
        List.map_append]
      rw [← List.append_assoc, hbuf]
      rfl

theorem inv_flush {c : Nat} {st : SState} (h : Inv c st) (flushAmount i : Nat) :
    Inv c (doFlush flushAmount i st) := by
  obtain ⟨hin, hW, hopens, hwfull, hwcur, hwhigh, htrdone, htrcur, htrhigh, hbuf⟩ := h
  by_cases hfl : (i + 1) % flushAmount = 0
  · have hstate : doFlush flushAmount i st =
        { index_records := [], shard_idx := st.shard_idx,
          in_shard := st.in_shard,
          events := st.events ++ [Ev.flush (indexName (i + 1)) st.index_records] } := by
      simp [doFlush, hfl]
    rw [hstate]
    refine ⟨?_, ?_, ?_, ?_, ?_, ?_, ?_, ?_, ?_, ?_⟩
    · simpa using hin
    · simp only [numWrites] at hW ⊢
      simpa using hW
    · simpa using hopens
    · intro s hs
      simp only at hs ⊢
      simpa using hwfull s hs
    · simpa using hwcur
    · intro s hs
      simp only at hs ⊢
      simpa using hwhigh s hs
    · intro s hs
      simp only at hs ⊢
      have := htrdone s hs
      simp only [shardTrace] at this ⊢
      simp [List.filter_append, List.filter_cons, this]
    · simp only
      simp only [shardTrace] at htrcur ⊢
      simp [List.filter_append, List.filter_cons, htrcur]
    · intro s hs
      simp only at hs ⊢
      have := htrhigh s hs
      simp only [shardTrace] at this ⊢
      simp [List.filter_append, List.filter_cons, this]
    · simp only
      simp only [allFlushed_append, allFlushed_flush, allFlushed_nil,
        allWrites_append, allWrites_flush, allWrites_nil]
      simp [hbuf]
  · have hstate : doFlush flushAmount i st = st := by
      simp [doFlush, hfl]
    rw [hstate]
    exact ⟨hin, hW, hopens, hwfull, hwcur, hwhigh, htrdone, htrcur, htrhigh, hbuf⟩

theorem inv_step (cfg : SConfig) (env : SEnv) (hc : 1 ≤ cfg.samples_per_shard)
    {st : SState} (h : Inv cfg.samples_per_shard st) (i : Nat) (ex : RawRecord) :
    Inv cfg.samples_per_shard (shardStep cfg env st i ex) := by
  unfold shardStep
  cases hro : recOutcome cfg env ex with
  | none => exact h
  | some bt =>
    exact inv_flush (inv_write_rotate hc h (sampleOf ex bt.1 bt.2))
      cfg.parquet_flush_amount i

theorem inv_loop (cfg : SConfig) (env : SEnv) (hc : 1 ≤ cfg.samples_per_shard)
    (data : List RawRecord) : ∀ (start : Nat) (st : SState),
    Inv cfg.samples_per_shard st →
    Inv cfg.samples_per_shard (shardLoop cfg env start data st) := by
  induction data with
  | nil => intro start st h; exact h
  | cons ex rest ih =>
    intro start st h
    exact ih (start + 1) (shardStep cfg env st start ex) (inv_step cfg env hc h start ex)

theorem step_allWrites (cfg : SConfig) (env : SEnv) (st : SState)
    (i : Nat) (ex : RawRecord) :
    allWrites (shardStep cfg env st i ex).events =
      allWrites st.events ++
        (match recOutcome cfg env ex with
         | none => []
         | some bt => [(st.shard_idx, sampleOf ex bt.1 bt.2)]) := by
  unfold shardStep
  cases hro : recOutcome cfg env ex with
  | none => simp
  | some bt =>
    simp only
    unfold doFlush doRotate doWrite
    by_cases hr : cfg.samples_per_shard ≤ st.in_shard + 1 <;>
      by_cases hf : (i + 1) % cfg.parquet_flush_amount = 0 <;>
      simp [hr, hf]

theorem step_periodicCount (cfg : SConfig) (env : SEnv) (st : SState)
    (i : Nat) (ex : RawRecord) :
    periodicCount (shardStep cfg env st i ex).events =
      periodicCount st.events +
        (if (recOutcome cfg env ex).isSome ∧ (i + 1) % cfg.parquet_flush_amount = 0
         then 1 else 0) := by
  unfold shardStep
  cases hro : recOutcome cfg env ex with
  | none => simp
  | some bt =>
    simp only
    unfold doFlush doRotate doWrite
    by_cases hr : cfg.samples_per_shard ≤ st.in_shard + 1 <;>
      by_cases hf : (i + 1) % cfg.parquet_flush_amount = 0 <;>
      simp [hr, hf, periodicCount, indexName_ne_final]

theorem step_finalFlushCount (cfg : SConfig) (env : SEnv) (st : SState)
    (i : Nat) (ex : RawRecord) :
    finalFlushCount (shardStep cfg env st i ex).events =
      finalFlushCount st.events := by
  unfold shardStep
  cases hro : recOutcome cfg env ex with
  | none => simp
  | some bt =>
    simp only
    unfold doFlush doRotate doWrite
    by_cases hr : cfg.samples_per_shard ≤ st.in_shard + 1 <;>
      by_cases hf : (i + 1) % cfg.parquet_flush_amount = 0 <;>
      simp [hr, hf, finalFlushCount, indexName_ne_final]

theorem loop_allWrites_keys (cfg : SConfig) (env : SEnv) (data : List RawRecord) :
    ∀ (start : Nat) (st : SState),
    (allWrites (shardLoop cfg env start data st).events).map (fun p => p.2.key) =
      (allWrites st.events).map (fun p => p.2.key) ++
        (data.filter (fun ex => (recOutcome cfg env ex).isSome)).map keyOf := by
  induction data with
  | nil => intro start st; simp [shardLoop]
  | cons ex rest ih =>
    intro start st
    simp only [shardLoop]
    rw [ih]
    rw [step_allWrites]
    cases hro : recOutcome cfg env ex with
    | none => simp [List.filter_cons, hro]
    | some bt =>
      simp [List.filter_cons, hro, sampleOf, keyOf]

theorem loop_numWrites (cfg : SConfig) (env : SEnv) (data : List RawRecord) :
    ∀ (start : Nat) (st : SState),
    numWrites (shardLoop cfg env start data st).events =
      numWrites st.events + countWritten cfg env data := by
  intro start st
  have h := loop_allWrites_keys cfg env data start st
  have h1 := congrArg List.length h
  simp only [List.length_map, List.length_append] at h1
  simpa [numWrites, countWritten] using h1

theorem loop_periodicCount (cfg : SConfig) (env : SEnv) (data : List RawRecord) :
    ∀ (start : Nat) (st : SState),
    periodicCount (shardLoop cfg env start data st).events =
      periodicCount st.events + countBoundaryWritten cfg env start data := by
  induction data with
  | nil => intro start st; simp [shardLoop, countBoundaryWritten]
  | cons ex rest ih =>
    intro start st
    simp only [shardLoop, countBoundaryWritten]
    rw [ih, step_periodicCount]
    omega

theorem loop_finalFlushCount (cfg : SConfig) (env : SEnv) (data : List RawRecord) :
    ∀ (start : Nat) (st : SState),
    finalFlushCount (shardLoop cfg env start data st).events =
      finalFlushCount st.events := by
  induction data with
  | nil => intro start st; rfl
  | cons ex rest ih =>
    intro start st
    simp only [shardLoop]
    rw [ih, step_finalFlushCount]

theorem final_events (st : SState) : (shardFinal st).events =
    (if st.index_records = [] then st.events
     else st.events ++ [Ev.flush finalIndexName st.index_records]) ++
      [Ev.closeShard st.shard_idx] := by
  unfold shardFinal
  by_cases hb : st.index_records = [] <;> simp [hb]

theorem final_shard_idx (st : SState) : (shardFinal st).shard_idx = st.shard_idx := by
  unfold shardFinal
  by_cases hb : st.index_records = [] <;> simp [hb]

theorem final_allWrites (st : SState) :
    allWrites (shardFinal st).events = allWrites st.events := by
  rw [final_events]
  by_cases hb : st.index_records = [] <;> simp [hb]

theorem final_countOpens (st : SState) :
    countOpens (shardFinal st).events = countOpens st.events := by
  rw [final_events]
  by_cases hb : st.index_records = [] <;> simp [hb]

theorem final_writesTo (s : Nat) (st : SState) :
    writesTo s (shardFinal st).events = writesTo s st.events := by
  rw [final_events]
  by_cases hb : st.index_records = [] <;> simp [hb]

theorem final_allFlushed (st : SState) :
    allFlushed (shardFinal st).events = allFlushed st.events ++ st.index_records := by
  rw [final_events]
  by_cases hb : st.index_records = [] <;> simp [hb]

theorem final_periodicCount (st : SState) :
    periodicCount (shardFinal st).events = periodicCount st.events := by
  rw [final_events]
  by_cases hb : st.index_records = [] <;>
    simp [hb, periodicCount, finalIndexName]

theorem final_finalFlushCount (st : SState) :
    finalFlushCount (shardFinal st).events =
      finalFlushCount st.events + (if st.index_records = [] then 0 else 1) := by
  rw [final_events]
  by_cases hb : st.index_records = [] <;>
    simp [hb, finalFlushCount, finalIndexName]

theorem step_buffer (cfg : SConfig) (env : SEnv) (st : SState) (i : Nat)
    (ex : RawRecord)
    (h : allFlushed st.events ++ st.index_records =
      (allWrites st.events).map idxPair) :
    allFlushed (shardStep cfg env st i ex).events ++
      (shardStep cfg env st i ex).index_records =
      (allWrites (shardStep cfg env st i ex).events).map idxPair := by
  unfold shardStep
  cases hro : recOutcome cfg env ex with
  | none => exact h
  | some bt =>
    simp only
    unfold doFlush doRotate doWrite
    by_cases hr : cfg.samples_per_shard ≤ st.in_shard + 1 <;>
      by_cases hf : (i + 1) % cfg.parquet_flush_amount = 0 <;>
      simp [hr, hf] <;>
      rw [← List.append_assoc, h] <;>
      rfl

theorem loop_buffer (cfg : SConfig) (env : SEnv) (data : List RawRecord) :
    ∀ (start : Nat) (st : SState),
    allFlushed st.events ++ st.index_records =
      (allWrites st.events).map idxPair →
    allFlushed (shardLoop cfg env start data st).events ++
      (shardLoop cfg env start data st).index_records =
      (allWrites (shardLoop cfg env start data st).events).map idxPair := by
  induction data with
  | nil => intro start st h; exact h
  | cons ex rest ih =>
    intro start st h
    exact ih (start + 1) (shardStep cfg env st start ex)
      (step_buffer cfg env st start ex h)

/-- Over a complete run, the concatenation of all flushed index files is
exactly the index row of every written sample, in write order: nothing
is flushed twice and nothing is dropped.  Holds for every
configuration. -/
theorem run_flushed_eq (cfg : SConfig) (env : SEnv) (data : List RawRecord) :
    allFlushed (shard_dataset cfg env data).events =
      (allWrites (shard_dataset cfg env data).events).map idxPair := by
  have h0 : allFlushed initState.events ++ initState.index_records =
      (allWrites initState.events).map idxPair := by
    simp [initState]
  have hL := loop_buffer cfg env data 0 initState h0
  rw [shard_dataset, final_allFlushed, final_allWrites, hL]

/-- The keys of the written samples are, in order, the keys of the
input records that survive the skip guards. -/
theorem run_keys (cfg : SConfig) (env : SEnv) (data : List RawRecord) :
    (allWrites (shard_dataset cfg env data).events).map (fun p => p.2.key) =
      (data.filter (fun ex => (recOutcome cfg env ex).isSome)).map keyOf := by
  rw [shard_dataset, final_allWrites, loop_allWrites_keys]
  simp [initState]

theorem run_numWrites (cfg : SConfig) (env : SEnv) (data : List RawRecord) :
    numWrites (shard_dataset cfg env data).events = countWritten cfg env data := by
  have h : numWrites (shard_dataset cfg env data).events =
      numWrites (shardLoop cfg env 0 data initState).events := by
    simp only [shard_dataset, numWrites, final_allWrites]
  rw [h, loop_numWrites]
  simp [numWrites, initState]

theorem run_inv (cfg : SConfig) (env : SEnv) (data : List RawRecord)
    (hc : 1 ≤ cfg.samples_per_shard) :
    Inv cfg.samples_per_shard (shardLoop cfg env 0 data initState) :=
  inv_loop cfg env hc data 0 initState (inv_init cfg.samples_per_shard hc)

theorem run_shard_idx (cfg : SConfig) (env : SEnv) (data : List RawRecord)
    (hc : 1 ≤ cfg.samples_per_shard) :
    (shard_dataset cfg env data).shard_idx =
      countWritten cfg env data / cfg.samples_per_shard ∧
    (shardLoop cfg env 0 data initState).in_shard =
      countWritten cfg env data % cfg.samples_per_shard := by
  obtain ⟨hin, hW, -, -, -, -, -, -, -, -⟩ := run_inv cfg env data hc
  have hcw : numWrites (shardLoop cfg env 0 data initState).events =
      countWritten cfg env data := by
    rw [loop_numWrites]
    simp [numWrites, initState]
  rw [hcw] at hW
  have hc0 : 0 < cfg.samples_per_shard := hc
  constructor
  · rw [shard_dataset, final_shard_idx, ← hW, Nat.mul_add_div hc0,
      Nat.div_eq_of_lt hin]
    omega
  · rw [← hW, Nat.mul_add_mod, Nat.mod_eq_of_lt hin]


theorem run_countOpens (cfg : SConfig) (env : SEnv) (data : List RawRecord)
    (hc : 1 ≤ cfg.samples_per_shard) :
    countOpens (shard_dataset cfg env data).events =
      countWritten cfg env data / cfg.samples_per_shard + 1 := by
  obtain ⟨-, -, hopens, -, -, -, -, -, -, -⟩ := run_inv cfg env data hc
  have h1 := (run_shard_idx cfg env data hc).1
  rw [shard_dataset, final_shard_idx] at h1
  rw [shard_dataset, final_countOpens, hopens, h1]

theorem final_shardTrace (s : Nat) (st : SState) :
    shardTrace s (shardFinal st).events =
      shardTrace s st.events ++
        (if st.shard_idx = s then [Ev.closeShard st.shard_idx] else []) := by
  rw [final_events]
  by_cases hb : st.index_records = [] <;> by_cases hk : st.shard_idx = s <;>
    simp [hb, hk, shardTrace, List.filter_append, List.filter_cons]

theorem events_bounded (E : List Ev) (k : Nat)
    (h : ∀ s, k < s → shardTrace s E = []) : E.all (evBound k) = true := by
  rw [List.all_eq_true]
  intro e he
  have hmem : ∀ s : Nat, isShardEv s e = true → s ≤ k := by
    intro s hse
    by_contra hgt
    have hks : k < s := by omega
    have : e ∈ shardTrace s E := List.mem_filter.mpr ⟨he, hse⟩
    rw [h s hks] at this
    simp at this
  cases e with
  | openShard s =>
    simpa [evBound] using hmem s (by simp)
  | write s smp =>
    simpa [evBound] using hmem s (by simp)
  | closeShard s =>
    simpa [evBound] using hmem s (by simp)
  | flush nm recs => simp [evBound]

/-- C2 counterexample: on the pre-normalized path with
`samples_per_shard = 1` and a single written sample (v = 1, c = 1, so
ceil(v / c) = 1 and c divides v), the run creates TWO tar files — the
second one an empty trailing shard — and reports 2 shards, refuting
both halves of the claim. -/
theorem shard_count_ceil_counterexample :
    numWrites (shard_dataset cfgCapOne ppEnv [sampleRec "1"]).events = 1 ∧
    countOpens (shard_dataset cfgCapOne ppEnv [sampleRec "1"]).events = 2 ∧
    reportedShards (shard_dataset cfgCapOne ppEnv [sampleRec "1"]) = 2 ∧
    writesTo 1 (shard_dataset cfgCapOne ppEnv [sampleRec "1"]).events = [] := by
  decide

/-- C2 (amended): for every run with capacity c ≥ 1 and v written
samples, the number of shard files created is v / c + 1 (floor
division) — equal to ceil(v / c) when c does not divide v, and one more
(an empty trailing shard) when it does — the reported count equals the
same number, and the last opened shard holds v mod c samples. -/
theorem shard_file_count_floor_plus_one (cfg : SConfig) (env : SEnv)
    (data : List RawRecord) (hc : 1 ≤ cfg.samples_per_shard) :
    countOpens (shard_dataset cfg env data).events =
      numWrites (shard_dataset cfg env data).events / cfg.samples_per_shard + 1 ∧
    reportedShards (shard_dataset cfg env data) =
      numWrites (shard_dataset cfg env data).events / cfg.samples_per_shard + 1 ∧
    (writesTo (shard_dataset cfg env data).shard_idx
        (shard_dataset cfg env data).events).length =
      numWrites (shard_dataset cfg env data).events % cfg.samples_per_shard := by
  have hnw := run_numWrites cfg env data
  rw [hnw]
  refine ⟨run_countOpens cfg env data hc, ?_, ?_⟩
  · rw [reportedShards, (run_shard_idx cfg env data hc).1]
  · obtain ⟨-, -, -, -, hwcur, -, -, -, -, -⟩ := run_inv cfg env data hc
    rw [shard_dataset, final_shard_idx, final_writesTo, hwcur,
      (run_shard_idx cfg env data hc).2]

theorem shard_file_count_floor_plus_one_witness :
    countOpens (shard_dataset cfgCapTwo ppEnv
      [sampleRec "1", sampleRec "2", sampleRec "3", sampleRec "4", sampleRec "5"]).events =
      numWrites (shard_dataset cfgCapTwo ppEnv
        [sampleRec "1", sampleRec "2", sampleRec "3", sampleRec "4", sampleRec "5"]).events /
        cfgCapTwo.samples_per_shard + 1 ∧
    reportedShards (shard_dataset cfgCapTwo ppEnv
      [sampleRec "1", sampleRec "2", sampleRec "3", sampleRec "4", sampleRec "5"]) =
      numWrites (shard_dataset cfgCapTwo ppEnv
        [sampleRec "1", sampleRec "2", sampleRec "3", sampleRec "4", sampleRec "5"]).events /
        cfgCapTwo.samples_per_shard + 1 ∧
    (writesTo (shard_dataset cfgCapTwo ppEnv
        [sampleRec "1", sampleRec "2", sampleRec "3", sampleRec "4", sampleRec "5"]).shard_idx
      (shard_dataset cfgCapTwo ppEnv
        [sampleRec "1", sampleRec "2", sampleRec "3", sampleRec "4", sampleRec "5"]).events).length =
      numWrites (shard_dataset cfgCapTwo ppEnv
        [sampleRec "1", sampleRec "2", sampleRec "3", sampleRec "4", sampleRec "5"]).events %
        cfgCapTwo.samples_per_shard :=
  shard_file_count_floor_plus_one cfgCapTwo ppEnv
    [sampleRec "1", sampleRec "2", sampleRec "3", sampleRec "4", sampleRec "5"]
    (by decide)

/-- C3 counterexample: the run never deduplicates keys.  Feeding the
same record twice writes two samples with the identical key "s_1", and
the flushed index rows each match TWO written samples instead of
exactly one. -/
theorem index_key_uniqueness_counterexample :
    (allWrites (shard_dataset cfgBig ppEnv
        [sampleRec "1", sampleRec "1"]).events).map (fun p => p.2.key) =
      ["s_1", "s_1"] ∧
    ¬ ((allWrites (shard_dataset cfgBig ppEnv
        [sampleRec "1", sampleRec "1"]).events).map (fun p => p.2.key)).Nodup ∧
    ((allWrites (shard_dataset cfgBig ppEnv
        [sampleRec "1", sampleRec "1"]).events).filter
      (fun p => p.2.key == "s_1")).length = 2 ∧
    (allFlushed (shard_dataset cfgBig ppEnv
        [sampleRec "1", sampleRec "1"]).events).map (fun rec => rec.key) =
      ["s_1", "s_1"] := by
  decide

/-- C3 (amended): provided the derived keys `source_id` of the input
records are pairwise distinct, every flushed index row's key matches
exactly one written sample, that sample was written into the container
whose file name the row's shard field holds verbatim, and the keys of
the written samples are globally unique. -/
theorem index_key_correspondence (cfg : SConfig) (env : SEnv)
    (data : List RawRecord) (hnd : (data.map keyOf).Nodup) :
    allFlushed (shard_dataset cfg env data).events =
      (allWrites (shard_dataset cfg env data).events).map idxPair ∧
    ((allWrites (shard_dataset cfg env data).events).map
      (fun p => p.2.key)).Nodup ∧
    ∀ rec ∈ allFlushed (shard_dataset cfg env data).events,
      ((allWrites (shard_dataset cfg env data).events).filter
        (fun p => p.2.key == rec.key)).length = 1 ∧
      ∀ p ∈ allWrites (shard_dataset cfg env data).events,
        p.2.key = rec.key → rec.shard = shardName p.1 := by
  have hnd2 : ((allWrites (shard_dataset cfg env data).events).map
      (fun p => p.2.key)).Nodup := by
    rw [run_keys]
    exact hnd.sublist ((List.filter_sublist data).map keyOf)
  refine ⟨run_flushed_eq cfg env data, hnd2, ?_⟩
  intro rec hrec
  rw [run_flushed_eq] at hrec
  obtain ⟨p0, hp0mem, hp0eq⟩ := List.mem_map.mp hrec
  have hkey : rec.key = p0.2.key := by rw [← hp0eq]; rfl
  have hshard : rec.shard = shardName p0.1 := by rw [← hp0eq]; rfl
  constructor
  · have hmem : p0.2.key ∈ (allWrites (shard_dataset cfg env data).events).map
        (fun p => p.2.key) := List.mem_map_of_mem _ hp0mem
    have hcount := List.count_eq_one_of_mem hnd2 hmem
    rw [hkey]
    rw [← List.countP_eq_length_filter]
    rw [List.count] at hcount
    rw [List.countP_map] at hcount
    exact hcount
  · intro p hp hpk
    have hpeq : p = p0 :=
      List.inj_on_of_nodup_map hnd2 hp hp0mem (by rw [hpk, hkey])
    rw [hshard, hpeq]

theorem index_key_correspondence_witness :
    allFlushed (shard_dataset cfgCapTwo ppEnv
        [sampleRec "1", sampleRec "2", sampleRec "3"]).events =
      (allWrites (shard_dataset cfgCapTwo ppEnv
        [sampleRec "1", sampleRec "2", sampleRec "3"]).events).map idxPair ∧
    ((allWrites (shard_dataset cfgCapTwo ppEnv
        [sampleRec "1", sampleRec "2", sampleRec "3"]).events).map
      (fun p => p.2.key)).Nodup ∧
    ∀ rec ∈ allFlushed (shard_dataset cfgCapTwo ppEnv
        [sampleRec "1", sampleRec "2", sampleRec "3"]).events,
      ((allWrites (shard_dataset cfgCapTwo ppEnv
          [sampleRec "1", sampleRec "2", sampleRec "3"]).events).filter
        (fun p => p.2.key == rec.key)).length = 1 ∧
      ∀ p ∈ allWrites (shard_dataset cfgCapTwo ppEnv
          [sampleRec "1", sampleRec "2", sampleRec "3"]).events,
        p.2.key = rec.key → rec.shard = shardName p.1 :=
  index_key_correspondence cfgCapTwo ppEnv
    [sampleRec "1", sampleRec "2", sampleRec "3"] (by decide)

/-- C4 counterexample: with the degenerate configured capacity 0 a
single written sample lands in shard 0, exceeding the capacity — the
claim's bound "at most samples_per_shard samples" fails for
`samples_per_shard = 0`. -/
theorem shard_capacity_counterexample :
    cfgZero.samples_per_shard = 0 ∧
    (writesTo 0 (shard_dataset cfgZero ppEnv [sampleRec "1"]).events).length = 1 := by
  decide

/-- C4 (amended): for capacity c ≥ 1, every container with sequence
index up to the final one is opened exactly once, receives all its
writes strictly between its open and its single close, holds at most c
samples, and no container event mentions a sequence index beyond the
final one (so nothing is ever written to a closed container and no
container is closed twice). -/
theorem shard_capacity_trace (cfg : SConfig) (env : SEnv)
    (data : List RawRecord) (hc : 1 ≤ cfg.samples_per_shard) :
    (∀ s, s ≤ (shard_dataset cfg env data).shard_idx →
      shardTrace s (shard_dataset cfg env data).events =
        Ev.openShard s ::
          ((writesTo s (shard_dataset cfg env data).events).map (Ev.write s) ++
            [Ev.closeShard s]) ∧
      (writesTo s (shard_dataset cfg env data).events).length ≤
        cfg.samples_per_shard) ∧
    (shard_dataset cfg env data).events.all
      (evBound (shard_dataset cfg env data).shard_idx) = true := by
  obtain ⟨hin, hW, hopens, hwfull, hwcur, hwhigh, htrdone, htrcur, htrhigh, hbuf⟩ :=
    run_inv cfg env data hc
  constructor
  · intro s hs
    rw [shard_dataset, final_shard_idx] at hs
    rw [shard_dataset, final_writesTo, final_shardTrace]
    rcases Nat.lt_or_ge s (shardLoop cfg env 0 data initState).shard_idx with hlt | hge
    · have hne : (shardLoop cfg env 0 data initState).shard_idx ≠ s := by omega
      rw [if_neg hne, List.append_nil]
      exact ⟨htrdone s hlt, by rw [hwfull s hlt]⟩
    · have heq : (shardLoop cfg env 0 data initState).shard_idx = s := by omega
      subst heq
      rw [if_pos rfl, htrcur]
      constructor
      · simp
      · rw [hwcur]
        omega
  · apply events_bounded
    intro s hs
    rw [shard_dataset, final_shard_idx] at hs
    rw [shard_dataset, final_shardTrace]
    have hne : (shardLoop cfg env 0 data initState).shard_idx ≠ s := by omega
    rw [if_neg hne, List.append_nil]
    exact htrhigh s hs

theorem shard_capacity_trace_witness :
    (∀ s, s ≤ (shard_dataset cfgCapTwo ppEnv
        [sampleRec "1", sampleRec "2", sampleRec "3"]).shard_idx →
      shardTrace s (shard_dataset cfgCapTwo ppEnv
          [sampleRec "1", sampleRec "2", sampleRec "3"]).events =
        Ev.openShard s ::
          ((writesTo s (shard_dataset cfgCapTwo ppEnv
              [sampleRec "1", sampleRec "2", sampleRec "3"]).events).map (Ev.write s) ++
            [Ev.closeShard s]) ∧
      (writesTo s (shard_dataset cfgCapTwo ppEnv
          [sampleRec "1", sampleRec "2", sampleRec "3"]).events).length ≤
        cfgCapTwo.samples_per_shard) ∧
    (shard_dataset cfgCapTwo ppEnv
        [sampleRec "1", sampleRec "2", sampleRec "3"]).events.all
      (evBound (shard_dataset cfgCapTwo ppEnv
        [sampleRec "1", sampleRec "2", sampleRec "3"]).shard_idx) = true :=
  shard_capacity_trace cfgCapTwo ppEnv
    [sampleRec "1", sampleRec "2", sampleRec "3"] (by decide)

/-- C5 counterexample: `parquet_flush_amount = 2` and two input records
of which the second is skipped (missing files).  The claim demands
floor(2 / 2) = 1 periodic flush, but the skipped record `continue`s
past the flush check, so the run performs 0 periodic flushes; the
single written index row only reaches disk via the final flush. -/
theorem flush_cadence_counterexample :
    countWritten cfgFlushTwo skipEnv [sampleRec "1", sampleRec "2"] = 1 ∧
    periodicCount (shard_dataset cfgFlushTwo skipEnv
      [sampleRec "1", sampleRec "2"]).events = 0 ∧
    finalFlushCount (shard_dataset cfgFlushTwo skipEnv
      [sampleRec "1", sampleRec "2"]).events = 1 ∧
    (allFlushed (shard_dataset cfgFlushTwo skipEnv
      [sampleRec "1", sampleRec "2"]).events).length = 1 := by
  decide

/-- C5 (amended): for `parquet_flush_amount` ≥ 1, a periodic flush
happens exactly at those input positions whose 1-based index is a
multiple of the cadence AND whose record is written (a skipped record
at a boundary silently misses its flush); one additional final index
file is written iff the buffer is non-empty at end of stream; and the
concatenation of all flushed files is exactly the index row of every
written sample — no row flushed twice, none dropped. -/
theorem flush_cadence_exact (cfg : SConfig) (env : SEnv)
    (data : List RawRecord) (_hN : 1 ≤ cfg.parquet_flush_amount) :
    periodicCount (shard_dataset cfg env data).events =
      countBoundaryWritten cfg env 0 data ∧
    finalFlushCount (shard_dataset cfg env data).events =
      (if (shardLoop cfg env 0 data initState).index_records = [] then 0
       else 1) ∧
    allFlushed (shard_dataset cfg env data).events =
      (allWrites (shard_dataset cfg env data).events).map idxPair := by
  refine ⟨?_, ?_, run_flushed_eq cfg env data⟩
  · rw [shard_dataset, final_periodicCount, loop_periodicCount]
    simp [periodicCount, initState]
  · rw [shard_dataset, final_finalFlushCount, loop_finalFlushCount]
    simp [finalFlushCount, initState]

theorem flush_cadence_exact_witness :
    periodicCount (shard_dataset cfgFlushTwo ppEnv
      [sampleRec "1", sampleRec "2", sampleRec "3", sampleRec "4", sampleRec "5"]).events =
      countBoundaryWritten cfgFlushTwo ppEnv 0
        [sampleRec "1", sampleRec "2", sampleRec "3", sampleRec "4", sampleRec "5"] ∧
    finalFlushCount (shard_dataset cfgFlushTwo ppEnv
      [sampleRec "1", sampleRec "2", sampleRec "3", sampleRec "4", sampleRec "5"]).events =
      (if (shardLoop cfgFlushTwo ppEnv 0
          [sampleRec "1", sampleRec "2", sampleRec "3", sampleRec "4", sampleRec "5"]
          initState).index_records = [] then 0
       else 1) ∧
    allFlushed (shard_dataset cfgFlushTwo ppEnv
      [sampleRec "1", sampleRec "2", sampleRec "3", sampleRec "4", sampleRec "5"]).events =
      (allWrites (shard_dataset cfgFlushTwo ppEnv
        [sampleRec "1", sampleRec "2", sampleRec "3", sampleRec "4", sampleRec "5"]).events).map
        idxPair :=
  flush_cadence_exact cfgFlushTwo ppEnv
    [sampleRec "1", sampleRec "2", sampleRec "3", sampleRec "4", sampleRec "5"]
    (by decide)

/-- C9: main() binds the keyword argument data_json against
shard_dataset, whose parameters have no such name (the parameter is
data_path), so CPython raises TypeError at call binding, before the
callee body runs — the CLI entry point can never produce shard or
index output. -/
theorem sharding_main_kwarg_type_error :
    sharding_main_call = Except.error PyErr.typeError := rfl

end Sharding

namespace Ingestion

theorem exceptOk_map (x : Except PyErr (List NormEntry))
    (f : List NormEntry → List NormEntry) :
    exceptOk (x.map f) = exceptOk x := by
  cases x <;> rfl

/-- C1 (code bug): when the referenced `image_id` is absent from the
asset mapping, `normalize_entry` logs its warning but, lacking a
return, goes on to subscript the `None` lookup result —
`image_entry["image_path"]` raises `TypeError`, which propagates out of
the record instead of the documented log-and-skip. -/
theorem normalize_entry_unresolved_reference_raises
    (caption_id image_id root_dir : String)
    (data_dict : String → Option AssetEntry) (fs_exists : String → Bool)
    (label : Option Bool) (split_str : String)
    (h : data_dict image_id = none) :
    normalize_entry caption_id image_id root_dir data_dict fs_exists label
      split_str = Except.error PyErr.typeError := by
  simp [normalize_entry, h]

theorem normalize_entry_unresolved_reference_raises_witness :
    dictEx "missing" = none ∧
    normalize_entry "a1" "missing" "data" dictEx fsEx (some false) "train" =
      Except.error PyErr.typeError :=
  ⟨by decide,
   normalize_entry_unresolved_reference_raises "a1" "missing" "data" dictEx
     fsEx (some false) "train" (by decide)⟩

/-- C10: the loop of `iter_entries` evaluates
`math.floor(score / .10)` for every annotation before joining it; a
single annotation whose `similarity_score` is missing (`None`) raises
`TypeError` there, aborting the whole entry stream rather than
skipping the record. -/
theorem iter_entries_missing_score_raises (root_dir : String)
    (data_dict : String → Option AssetEntry) (fs_exists : String → Bool)
    (split_str : String) (pre : List AnnRecord) (ann : AnnRecord)
    (post : List AnnRecord)
    (hok : exceptOk (iter_entries root_dir data_dict fs_exists split_str pre) =
      true)
    (hna : ann.similarity_score = none) :
    iter_entries root_dir data_dict fs_exists split_str (pre ++ ann :: post) =
      Except.error PyErr.typeError := by
  induction pre with
  | nil =>
    simp only [List.nil_append, iter_entries, hna]
  | cons a rest ih =>
    cases hsc : a.similarity_score with
    | none =>
      rw [iter_entries] at hok
      simp only [hsc] at hok
      simp [exceptOk] at hok
    | some q =>
      cases hne : normalize_entry a.id a.image_id root_dir data_dict fs_exists
          a.falsified split_str with
      | error e =>
        rw [iter_entries] at hok
        simp only [hsc, hne] at hok
        simp [exceptOk] at hok
      | ok r =>
        cases r with
        | none =>
          rw [iter_entries] at hok
          simp only [hsc, hne] at hok
          rw [List.cons_append, iter_entries]
          simp only [hsc, hne]
          exact ih hok
        | some n =>
          rw [iter_entries] at hok
          simp only [hsc, hne, exceptOk_map] at hok
          rw [List.cons_append, iter_entries]
          simp only [hsc, hne]
          rw [ih hok]
          rfl

theorem iter_entries_missing_score_raises_witness :
    exceptOk (iter_entries "data" dictEx fsEx "train" [annGood]) = true ∧
    annNoScore.similarity_score = none ∧
    iter_entries "data" dictEx fsEx "train" ([annGood] ++ annNoScore :: []) =
      Except.error PyErr.typeError :=
  ⟨by decide, rfl,
   iter_entries_missing_score_raises "data" dictEx fsEx "train" [annGood]
     annNoScore [] (by decide) rfl⟩

end Ingestion

namespace Preprocessing

/-- C8: every image the environment can decode is normalized — whatever
its mode — to mode RGB before the resize and the JPEG re-encode, so the
written bytes decode to a pure 3-channel image of exactly the
configured square dimensions, and the function returns normally. -/
theorem preprocess_image_normalizes (env : PEnv) (img_path : String)
    (size : Nat) (img : PILImage) (h : env.openImage img_path = some img) :
    (preprocess_image env img_path size).map decodeJpeg =
      some { mode := PILMode.RGB, width := size, height := size } := by
  unfold preprocess_image
  rw [h]
  by_cases h1 : img.mode = PILMode.P ∨ img.mode = PILMode.RGBA ∨
      img.mode = PILMode.LA
  · simp [h1, convert, resize, saveJpeg, decodeJpeg, jpegStoredMode]
  · by_cases h2 : img.mode = PILMode.RGB
    · simp [h1, h2, convert, resize, saveJpeg, decodeJpeg, jpegStoredMode]
    · simp [h1, h2, convert, resize, saveJpeg, decodeJpeg, jpegStoredMode]

theorem preprocess_image_normalizes_witness :
    envPalette.openImage "root/pal.png" =
      some { mode := PILMode.P, width := 30, height := 17 } ∧
    (preprocess_image envPalette "root/pal.png" 224).map decodeJpeg =
      some { mode := PILMode.RGB, width := 224, height := 224 } :=
  ⟨by decide,
   preprocess_image_normalizes envPalette "root/pal.png" 224
     { mode := PILMode.P, width := 30, height := 17 } (by decide)⟩

/-- C6 counterexample: on a decode failure `preprocess_entry` returns
the partial dictionary WITHOUT any `valid` key (modelled `none`): the
sample is not marked invalid via a valid = False discriminator — the
key is simply absent (only successful samples carry valid = True). -/
theorem preprocess_entry_valid_flag_counterexample :
    (preprocess_entry envNoImage entryEx 224).image = none ∧
    (preprocess_entry envNoImage entryEx 224).valid = none ∧
    ¬ (preprocess_entry envNoImage entryEx 224).valid = some false := by
  decide

/-- C6 (amended): for every entry whose image fails to decode or
identify, `preprocess_entry` catches the error and returns a result
carrying the cleaned caption and the label, with the image bytes
omitted AND the `valid` key omitted as well (rather than set to False);
the error never propagates.  Callers that filter on `valid == True`
still exclude such samples, because the key is only ever set on
success. -/
theorem preprocess_entry_decode_failure (env : PEnv) (entry : PrepEntry)
    (img_size : Nat)
    (h : preprocess_image env entry.img_path img_size = none) :
    preprocess_entry env entry img_size =
      { caption := clean_text entry.caption, label := entry.label,
        image := none, valid := none } := by
  unfold preprocess_entry
  rw [h]

theorem preprocess_entry_decode_failure_witness :
    preprocess_image envNoImage entryEx.img_path 224 = none ∧
    preprocess_entry envNoImage entryEx 224 =
      { caption := clean_text entryEx.caption, label := entryEx.label,
        image := none, valid := none } :=
  ⟨by decide, preprocess_entry_decode_failure envNoImage entryEx 224 (by decide)⟩

theorem char_shift (n : Nat) (h1 : 65 ≤ n) (h2 : n ≤ 90) :
    (Char.ofNat (n + 32)).toNat = n + 32 ∧
    ¬(65 ≤ n + 32 ∧ n + 32 ≤ 90) ∧
    (Char.ofNat (n + 32)).isWhitespace = false := by
  interval_cases n <;> refine ⟨by decide, by omega, by decide⟩

theorem ws_false_of_range (c : Char) (h : 65 ≤ c.toNat ∧ c.toNat ≤ 90) :
    c.isWhitespace = false := by
  have h1 : c ≠ ' ' := by
    intro hh
    rw [hh] at h
    exact absurd h (by decide)
  have h2 : c ≠ '\t' := by
    intro hh
    rw [hh] at h
    exact absurd h (by decide)
  have h3 : c ≠ '\r' := by
    intro hh
    rw [hh] at h
    exact absurd h (by decide)
  have h4 : c ≠ '\n' := by
    intro hh
    rw [hh] at h
    exact absurd h (by decide)
  simp [Char.isWhitespace, h1, h2, h3, h4]

theorem lowerChar_idem (c : Char) : lowerChar (lowerChar c) = lowerChar c := by
  unfold lowerChar
  by_cases h : 65 ≤ c.toNat ∧ c.toNat ≤ 90
  · obtain ⟨heq, hni, -⟩ := char_shift c.toNat h.1 h.2
    rw [if_pos h, heq, if_neg hni]
  · rw [if_neg h, if_neg h]

theorem lowerChar_ws (c : Char) :
    (lowerChar c).isWhitespace = c.isWhitespace := by
  unfold lowerChar
  by_cases h : 65 ≤ c.toNat ∧ c.toNat ≤ 90
  · obtain ⟨-, -, hws⟩ := char_shift c.toNat h.1 h.2
    rw [if_pos h, hws, ws_false_of_range c h]
  · rw [if_neg h]

theorem lowerChar_space : lowerChar ' ' = ' ' := by decide

theorem map_lowerChar_idem (l : List Char) :
    (l.map lowerChar).map lowerChar = l.map lowerChar := by
  induction l with
  | nil => rfl
  | cons c r ih => simp only [List.map_cons, lowerChar_idem, ih]

theorem dropWhile_map_lowerChar (l : List Char) :
    (l.map lowerChar).dropWhile Char.isWhitespace =
      (l.dropWhile Char.isWhitespace).map lowerChar := by
  induction l with
  | nil => rfl
  | cons c r ih =>
    by_cases hw : c.isWhitespace <;>
      simp [List.dropWhile_cons, lowerChar_ws, hw, ih]

theorem dropLead_map_lowerChar (l : List Char) :
    dropLead (l.map lowerChar) = (dropLead l).map lowerChar := by
  unfold dropLead
  rw [dropWhile_map_lowerChar]

theorem dropTrail_map_lowerChar (l : List Char) :
    dropTrail (l.map lowerChar) = (dropTrail l).map lowerChar := by
  unfold dropTrail
  rw [← List.map_reverse, dropWhile_map_lowerChar, List.map_reverse]

theorem trimList_map_lowerChar (l : List Char) :
    trimList (l.map lowerChar) = (trimList l).map lowerChar := by
  unfold trimList
  rw [dropLead_map_lowerChar, dropTrail_map_lowerChar]

theorem collapse_map_lowerChar (l : List Char) : ∀ b,
    collapseWsAux b (l.map lowerChar) = (collapseWsAux b l).map lowerChar := by
  induction l with
  | nil => intro b; rfl
  | cons c r ih =>
    intro b
    by_cases hw : c.isWhitespace <;> cases b <;>
      simp [collapseWsAux, lowerChar_ws, hw, ih, lowerChar_space]

theorem dropWhile_ws_idem (l : List Char) :
    (l.dropWhile Char.isWhitespace).dropWhile Char.isWhitespace =
      l.dropWhile Char.isWhitespace := by
  induction l with
  | nil => rfl
  | cons c r ih =>
    by_cases hw : c.isWhitespace <;> simp [List.dropWhile_cons, hw, ih]

theorem dropWhile_ws_suffix (l : List Char) :
    l.dropWhile Char.isWhitespace <:+ l := by
  induction l with
  | nil => exact List.suffix_rfl
  | cons c r ih =>
    by_cases hw : c.isWhitespace
    · rw [List.dropWhile_cons, if_pos hw]
      exact ih.trans (List.suffix_cons c r)
    · rw [List.dropWhile_cons, if_neg hw]

theorem dropLead_fixed_of_prefix (v u : List Char) (hpre : v <+: u)
    (hu : dropLead u = u) : dropLead v = v := by
  cases v with
  | nil => rfl
  | cons c v2 =>
    obtain ⟨t, ht⟩ := hpre
    by_cases hw : c.isWhitespace
    · exfalso
      rw [← ht] at hu
      unfold dropLead at hu
      rw [List.cons_append, List.dropWhile_cons, if_pos hw] at hu
      have hle := (List.dropWhile_sublist
        (p := Char.isWhitespace) (l := v2 ++ t)).length_le
      rw [hu] at hle
      simp only [List.cons_append, List.length_cons] at hle
      omega
    · unfold dropLead
      rw [List.dropWhile_cons, if_neg hw]

theorem dropTrail_pref (u : List Char) : dropTrail u <+: u := by
  unfold dropTrail
  have h := dropWhile_ws_suffix u.reverse
  have h2 := List.IsSuffix.reverse h
  simpa using h2

theorem dropLead_dropTrail_dropLead (u : List Char) :
    dropLead (dropTrail (dropLead u)) = dropTrail (dropLead u) :=
  dropLead_fixed_of_prefix _ _ (dropTrail_pref (dropLead u))
    (dropWhile_ws_idem u)

theorem dropTrail_idem (x : List Char) :
    dropTrail (dropTrail x) = dropTrail x := by
  unfold dropTrail
  rw [List.reverse_reverse, dropWhile_ws_idem]

theorem trimList_idem (u : List Char) :
    trimList (trimList u) = trimList u := by
  unfold trimList
  rw [dropLead_dropTrail_dropLead, dropTrail_idem]

theorem getLast?_elim_cons (a : Char) (u : List Char) (b : Bool) :
    ((a :: u).getLast?.elim b Char.isWhitespace) =
      (u.getLast?.elim a.isWhitespace Char.isWhitespace) := by
  induction u generalizing a b with
  | nil => simp
  | cons d r ih =>
    rw [List.getLast?_cons_cons, ih d b, ih d a.isWhitespace]

theorem collapse_snoc (u : List Char) (c : Char) : ∀ b,
    collapseWsAux b (u ++ [c]) =
      if c.isWhitespace then
        (if u.getLast?.elim b Char.isWhitespace then collapseWsAux b u
         else collapseWsAux b u ++ [' '])
      else collapseWsAux b u ++ [c] := by
  induction u with
  | nil =>
    intro b
    by_cases hw : c.isWhitespace <;> cases b <;> simp [collapseWsAux, hw]
  | cons a u2 ih =>
    intro b
    rw [List.cons_append]
    rw [getLast?_elim_cons]
    by_cases hwa : a.isWhitespace <;> cases b <;>
      simp only [collapseWsAux, hwa, if_pos, if_neg, ih, Bool.false_eq_true,
        if_false, if_true] <;>
      split_ifs <;> simp_all [collapseWsAux]

theorem collapse_flag_head (y : List Char) :
    (y.head?.elim false Char.isWhitespace = true →
      collapseWsAux false y = ' ' :: collapseWsAux true y) ∧
    (y.head?.elim false Char.isWhitespace = false →
      collapseWsAux false y = collapseWsAux true y) := by
  cases y with
  | nil => simp [collapseWsAux]
  | cons d r => by_cases hw : d.isWhitespace <;> simp [collapseWsAux, hw]

theorem collapse_reverse (x : List Char) :
    (collapseWsAux false x).reverse = collapseWsAux false x.reverse := by
  induction x using List.reverseRecOn with
  | nil => rfl
  | append_singleton u c ih =>
    rw [collapse_snoc, List.reverse_append]
    simp only [List.reverse_cons, List.reverse_nil, List.nil_append,
      List.singleton_append]
    by_cases hw : c.isWhitespace
    · rw [if_pos hw]
      have hhead : u.reverse.head?.elim false Char.isWhitespace =
          u.getLast?.elim false Char.isWhitespace := by
        rw [List.head?_reverse]
      cases hcond : u.getLast?.elim false Char.isWhitespace with
      | true =>
        rw [if_pos rfl]
        rw [show collapseWsAux false (c :: u.reverse) =
          ' ' :: collapseWsAux true u.reverse by
            simp [collapseWsAux, hw]]
        rw [ih]
        exact (collapse_flag_head u.reverse).1 (by rw [hhead, hcond])
      | false =>
        rw [if_neg (by simp)]
        rw [show collapseWsAux false (c :: u.reverse) =
          ' ' :: collapseWsAux true u.reverse by
            simp [collapseWsAux, hw]]
        rw [List.reverse_append, ih]
        simp only [List.reverse_cons, List.reverse_nil, List.nil_append,
          List.singleton_append]
        rw [← (collapse_flag_head u.reverse).2 (by rw [hhead, hcond])]
    · rw [if_neg hw]
      rw [show collapseWsAux false (c :: u.reverse) =
        c :: collapseWsAux false u.reverse by simp [collapseWsAux, hw]]
      rw [List.reverse_append, ih]
      simp

theorem collapse_idem (x : List Char) : ∀ b,
    collapseWsAux b (collapseWsAux b x) = collapseWsAux b x := by
  induction x with
  | nil => intro b; rfl
  | cons c r ih =>
    intro b
    by_cases hw : c.isWhitespace
    · cases b
      · have hsp : (' ' : Char).isWhitespace = true := by decide
        simp only [collapseWsAux, hw, if_true, Bool.false_eq_true, if_false,
          hsp]
        rw [ih true]
      · simp only [collapseWsAux, hw, if_true]
        exact ih true
    · simp only [collapseWsAux, hw, Bool.false_eq_true, if_false]
      rw [ih false]

theorem collapse_dropLead (x : List Char) : ∀ b,
    (collapseWsAux b x).dropWhile Char.isWhitespace =
      collapseWsAux false (x.dropWhile Char.isWhitespace) := by
  induction x with
  | nil => intro b; rfl
  | cons c r ih =>
    intro b
    have hsp : (' ' : Char).isWhitespace = true := by decide
    by_cases hw : c.isWhitespace <;> cases b <;>
      simp [collapseWsAux, List.dropWhile_cons, hw, hsp, ih]

theorem collapse_dropTrail (w : List Char) :
    dropTrail (collapseWsAux false w) = collapseWsAux false (dropTrail w) := by
  unfold dropTrail
  rw [collapse_reverse w]
  show (List.dropWhile Char.isWhitespace
    (collapseWsAux false w.reverse)).reverse = _
  rw [collapse_dropLead w.reverse false]
  rw [show collapseWsAux false (w.reverse.dropWhile Char.isWhitespace) =
    (collapseWsAux false
      ((w.reverse.dropWhile Char.isWhitespace).reverse)).reverse by
      rw [collapse_reverse, List.reverse_reverse]]
  rw [List.reverse_reverse]

theorem trim_of_collapse_trim (u : List Char) :
    trimList (collapseWsAux false (trimList u)) =
      collapseWsAux false (trimList u) := by
  unfold trimList
  rw [show dropLead (collapseWsAux false (dropTrail (dropLead u))) =
    collapseWsAux false (dropLead (dropTrail (dropLead u))) from
      collapse_dropLead (dropTrail (dropLead u)) false]
  rw [dropLead_dropTrail_dropLead]
  rw [collapse_dropTrail]
  rw [dropTrail_idem]

theorem map_id_pointwise (f : Char → Char) :
    ∀ l : List Char, l.map f = l → ∀ c ∈ l, f c = c := by
  intro l
  induction l with
  | nil => intro _ c hc; cases hc
  | cons a r ih =>
    intro h c hc
    rw [List.map_cons, List.cons.injEq] at h
    cases hc with
    | head => exact h.1
    | tail _ hm => exact ih h.2 c hm

theorem head_collapse_true (z : List Char) :
    ∀ c, (collapseWsAux true z).head? = some c → c.isWhitespace = false := by
  induction z with
  | nil => intro c h; simp [collapseWsAux] at h
  | cons d r ih =>
    intro c h
    by_cases hw : d.isWhitespace
    · rw [show collapseWsAux true (d :: r) = collapseWsAux true r by
        simp [collapseWsAux, hw]] at h
      exact ih c h
    · rw [show collapseWsAux true (d :: r) = d :: collapseWsAux false r by
        simp [collapseWsAux, hw]] at h
      simp only [List.head?_cons, Option.some.injEq] at h
      subst h
      simpa using hw

theorem collapsedRun_cons_of (c : Char) (l : List Char)
    (h1 : c.isWhitespace = true → c = ' ')
    (h2 : ∀ d, l.head? = some d →
      c.isWhitespace = false ∨ d.isWhitespace = false)
    (h3 : collapsedRun l = true) : collapsedRun (c :: l) = true := by
  simp only [collapsedRun, Bool.and_eq_true]
  refine ⟨⟨?_, ?_⟩, h3⟩
  · by_cases hw : c.isWhitespace
    · simp [h1 hw]
    · simp [hw]
  · cases l with
    | nil => rfl
    | cons d l2 =>
      rcases h2 d rfl with hcf | hdf
      · simp [hcf]
      · simp [hdf]

theorem collapsedRun_collapse (x : List Char) : ∀ b,
    collapsedRun (collapseWsAux b x) = true := by
  induction x with
  | nil => intro b; rfl
  | cons c r ih =>
    intro b
    by_cases hw : c.isWhitespace
    · cases b
      · rw [show collapseWsAux false (c :: r) =
          ' ' :: collapseWsAux true r by simp [collapseWsAux, hw]]
        apply collapsedRun_cons_of
        · intro _; rfl
        · intro d hd
          exact Or.inr (head_collapse_true r d hd)
        · exact ih true
      · rw [show collapseWsAux true (c :: r) = collapseWsAux true r by
          simp [collapseWsAux, hw]]
        exact ih true
    · rw [show collapseWsAux b (c :: r) = c :: collapseWsAux false r by
        simp [collapseWsAux, hw]]
      apply collapsedRun_cons_of
      · intro hcon; exact absurd hcon hw
      · intro d _
        exact Or.inl (by simpa using hw)
      · exact ih false

/-- C7: `clean_text` is a total, deterministic function whose output is
fully lowercased (every character is a fixpoint of lowercasing),
stripped (a fixpoint of trimming), and whitespace-collapsed (every
whitespace character is a single non-adjacent space); and the function
is idempotent: cleaning twice equals cleaning once. -/
theorem clean_text_normalization (x : String) :
    clean_text (clean_text x) = clean_text x ∧
    (∀ c ∈ (clean_text x).data, lowerChar c = c) ∧
    trimList (clean_text x).data = (clean_text x).data ∧
    collapsedRun (clean_text x).data = true := by
  have hdata : (clean_text x).data =
      collapseWsAux false (trimList (x.data.map lowerChar)) := rfl
  have hmapt : (trimList (x.data.map lowerChar)).map lowerChar =
      trimList (x.data.map lowerChar) := by
    rw [← trimList_map_lowerChar, map_lowerChar_idem]
  have hmaplower : ((clean_text x).data).map lowerChar = (clean_text x).data := by
    rw [hdata, ← collapse_map_lowerChar, hmapt]
  have htrim : trimList (clean_text x).data = (clean_text x).data := by
    rw [hdata]
    exact trim_of_collapse_trim (x.data.map lowerChar)
  refine ⟨?_, ?_, htrim, ?_⟩
  · show String.mk (collapseWsAux false
      (trimList ((clean_text x).data.map lowerChar))) = clean_text x
    rw [hmaplower, htrim, hdata, collapse_idem]
    rfl
  · intro c hc
    exact map_id_pointwise lowerChar _ hmaplower c hc
  · rw [hdata]
    exact collapsedRun_collapse _ false

end Preprocessing

